import Mathlib

/-!
Verification of the dnnl_aarch64 GEMM dispatcher, parallel executor and
JIT addressing helpers against their natural-language specification.

Shallow embedding conventions:
* C pointers become `Option` values (`none` = null pointer, `some v` = pointer
  to value `v`); dereference of a pointer the source has already null-checked
  is written `.getD 0`.
* `float` scalars (`alpha`, `beta`) become `ℚ`: the dispatcher only compares
  them with 0, never computes with them.
* `int` extents and strides become `Int` (C++ signed overflow is undefined, so
  every defined execution agrees with the mathematical value).
* external collaborators (vendor BLAS, generated-kernel drivers, reference
  kernels) become function parameters of the dispatcher; build-time
  preprocessor flags (`USE_CBLAS`, `__ARM_ARCH`, `USE_MKL_IGEMM`) and
  capability queries (`mayiuse`) become `Bool` parameters.
-/

namespace DnnlGemm

/-- `mkldnn_status_t`: the three status codes the dispatcher produces. -/
inductive Status where
  | success
  | invalid_arguments
  | unimplemented
deriving DecidableEq, Repr

/-- The recognized transpose symbols (source: `utils::one_of(*transa, 'T', 't', 'N', 'n')`). -/
def transSyms : List Char := ['T', 't', 'N', 'n']

/-- The transpose symbols meaning "transposed" (source: `utils::one_of(*transa, 'T', 't')`). -/
def transYes : List Char := ['T', 't']

/-- Embedding of `check_gemm_input` (src/mkl-dnn_v0.21/src/cpu/gemm/gemm.cpp:48-77).
Order of checks follows the source exactly: null pointers, then
`with_bias && *beta != 0`, then flag/extent consistency, then leading
dimensions. -/
def check_gemm_input (transa transb : Option Char) (M N K lda ldb ldc : Option Int)
    (alpha beta : Option ℚ) (with_bias : Bool) : Status :=
  if transa.isNone ∨ transb.isNone ∨ M.isNone ∨ N.isNone ∨ K.isNone ∨
      lda.isNone ∨ ldb.isNone ∨ ldc.isNone ∨ alpha.isNone ∨ beta.isNone then
    Status.invalid_arguments
  else
    let ta := transa.getD default
    let tb := transb.getD default
    let m := M.getD 0
    let n := N.getD 0
    let k := K.getD 0
    let la := lda.getD 0
    let lb := ldb.getD 0
    let lc := ldc.getD 0
    let bv := beta.getD 0
    if with_bias ∧ bv ≠ 0 then Status.unimplemented
    else if ¬ (ta ∈ transSyms ∧ tb ∈ transSyms ∧ 0 ≤ m ∧ 0 ≤ n ∧ 0 ≤ k) then
      Status.invalid_arguments
    else
      let nrowA : Int := if ta ∈ transYes then k else m
      let nrowB : Int := if tb ∈ transYes then n else k
      if ¬ (max 1 nrowA ≤ la ∧ max 1 nrowB ≤ lb ∧ max 1 m ≤ lc) then
        Status.invalid_arguments
      else Status.success

/-- The `offsetc` symbols accepted by the integer paths. -/
def offsetSyms : List Char := ['F', 'f', 'C', 'c', 'R', 'r']

/-- Embedding of `check_gemm_x8x8x32_input` (gemm.cpp:79-90). -/
def check_gemm_x8x8x32_input (offsetc transa transb : Option Char)
    (M N K lda ldb ldc : Option Int) (alpha beta : Option ℚ) (with_bias : Bool) : Status :=
  match offsetc with
  | none => Status.invalid_arguments
  | some oc =>
    if ¬ (oc ∈ offsetSyms) then Status.invalid_arguments
    else check_gemm_input transa transb M N K lda ldb ldc alpha beta with_bias

/-- A real-valued matrix buffer (the pointee of a `float *` operand). -/
abbrev MatQ := Nat → Nat → ℚ

/-- An integer matrix buffer (the pointee of an `int8_t *` / `int32_t *` operand). -/
abbrev MatZ := Nat → Nat → Int

/-- The branch `extended_sgemm` (gemm.cpp:92-140) takes after validation. -/
inductive SgemmRoute where
  | rejected (s : Status)
  | cblas
  | jit_avx512_common
  | gemm_driver
  | ref_gemm
deriving DecidableEq, Repr

/-- Routing logic of `extended_sgemm` (gemm.cpp:92-140).  `useCblas` is the
`USE_CBLAS` build flag, `armArch` the `__ARM_ARCH` build flag, `mic`/`avx` the
`mayiuse(avx512_mic)` / `mayiuse(avx)` capability answers. -/
def extended_sgemm_route (useCblas armArch mic avx : Bool)
    (transa transb : Option Char) (M N K : Option Int) (alpha : Option ℚ)
    (lda ldb : Option Int) (beta : Option ℚ) (ldc : Option Int)
    (biasPresent : Bool) (force_jit_nocopy_gemm : Bool) : SgemmRoute :=
  let st := check_gemm_input transa transb M N K lda ldb ldc alpha beta biasPresent
  if st ≠ Status.success then SgemmRoute.rejected st
  else if useCblas ∧ ¬ force_jit_nocopy_gemm then SgemmRoute.cblas
  else if ¬ armArch ∧ mic then SgemmRoute.jit_avx512_common
  else if ¬ armArch ∧ avx then SgemmRoute.gemm_driver
  else SgemmRoute.ref_gemm

/-- The separate bias pass of the `USE_CBLAS` branch (gemm.cpp:111-118):
`bias` is added to every column of `C` (rows `0..M`, columns `0..N`). -/
def cblas_bias_add (m n : Int) (bv : Nat → ℚ) (Cm : MatQ) : MatQ :=
  fun i j => if (i : Int) < m ∧ (j : Int) < n then Cm i j + bv i else Cm i j

/-- Embedding of `extended_sgemm` (gemm.cpp:92-140), parameterized by its four
external backends.  `cblasK` models `cblas_sgemm` (returns no status); the
other three return a status together with the possibly-updated output
pointer.  The output pointer `C` is forwarded untouched on every rejecting
path. -/
def extended_sgemm (useCblas armArch mic avx : Bool)
    (transa transb : Option Char) (M N K : Option Int) (alpha : Option ℚ)
    (A : Option MatQ) (lda : Option Int) (B : Option MatQ) (ldb : Option Int)
    (beta : Option ℚ) (C : Option MatQ) (ldc : Option Int)
    (bias : Option (Nat → ℚ)) (force_jit_nocopy_gemm : Bool)
    (cblasK : Option MatQ → Option MatQ)
    (jit512K driverK refK : Option MatQ → Status × Option MatQ) :
    Status × Option MatQ :=
  match extended_sgemm_route useCblas armArch mic avx transa transb M N K alpha
      lda ldb beta ldc bias.isSome force_jit_nocopy_gemm with
  | SgemmRoute.rejected s => (s, C)
  | SgemmRoute.cblas =>
    let C1 := cblasK C
    match bias with
    | some bv => (Status.success, C1.map (cblas_bias_add (M.getD 0) (N.getD 0) bv))
    | none => (Status.success, C1)
  | SgemmRoute.jit_avx512_common => jit512K C
  | SgemmRoute.gemm_driver => driverK C
  | SgemmRoute.ref_gemm => refK C

/-- Entry point `mkldnn_sgemm` (gemm.cpp:239-245): `extended_sgemm` with no
bias and the default `force_jit_nocopy_gemm = false`. -/
def mkldnn_sgemm (useCblas armArch mic avx : Bool)
    (transa transb : Option Char) (M N K : Option Int) (alpha : Option ℚ)
    (A : Option MatQ) (lda : Option Int) (B : Option MatQ) (ldb : Option Int)
    (beta : Option ℚ) (C : Option MatQ) (ldc : Option Int)
    (cblasK : Option MatQ → Option MatQ)
    (jit512K driverK refK : Option MatQ → Status × Option MatQ) :
    Status × Option MatQ :=
  extended_sgemm useCblas armArch mic avx transa transb M N K alpha A lda B ldb
    beta C ldc none false cblasK jit512K driverK refK

/-- The branch a quantized integer entry point takes. -/
inductive IgemmRoute where
  | rejected (s : Status)
  | early_success
  | cblas_igemm
  | gemm_driver
  | simple_gemm
  | ref_gemm
deriving DecidableEq, Repr

/-- Routing logic of `gemm_s8x8s32<uint8_t>` (gemm.cpp:168-195).
`use_mkl_igemm` is the `USE_MKL_IGEMM` build flag (when set,
`try_cblas_gemm_s8u8s32` computes and returns success; otherwise it returns
`mkldnn_unimplemented` and the dispatch continues). -/
def gemm_s8u8s32_route (use_mkl_igemm avx512core : Bool)
    (transa transb offsetc : Option Char) (M N K : Option Int) (alpha : Option ℚ)
    (LDA : Option Int) (LDB : Option Int) (beta : Option ℚ) (LDC : Option Int) :
    IgemmRoute :=
  let st := check_gemm_x8x8x32_input offsetc transa transb M N K LDA LDB LDC alpha beta false
  if st ≠ Status.success then IgemmRoute.rejected st
  else if M.getD 0 = 0 ∨ N.getD 0 = 0 ∨ K.getD 0 = 0 then IgemmRoute.early_success
  else if use_mkl_igemm then IgemmRoute.cblas_igemm
  else if avx512core then IgemmRoute.gemm_driver
  else IgemmRoute.ref_gemm

/-- Embedding of `gemm_s8x8s32<uint8_t>` (gemm.cpp:168-195), backends as
parameters. -/
def gemm_s8u8s32 (use_mkl_igemm avx512core : Bool)
    (transa transb offsetc : Option Char) (M N K : Option Int) (alpha : Option ℚ)
    (A : Option MatZ) (LDA : Option Int) (ao : Option Int)
    (B : Option MatZ) (LDB : Option Int) (bo : Option Int)
    (beta : Option ℚ) (C : Option MatZ) (LDC : Option Int) (co : Option (Nat → Int))
    (cblasK : Option MatZ → Option MatZ)
    (driverK refK : Option MatZ → Status × Option MatZ) :
    Status × Option MatZ :=
  match gemm_s8u8s32_route use_mkl_igemm avx512core transa transb offsetc M N K
      alpha LDA LDB beta LDC with
  | IgemmRoute.rejected s => (s, C)
  | IgemmRoute.early_success => (Status.success, C)
  | IgemmRoute.cblas_igemm => (Status.success, cblasK C)
  | IgemmRoute.gemm_driver => driverK C
  | IgemmRoute.simple_gemm => (Status.success, C)
  | IgemmRoute.ref_gemm => refK C

/-- Routing logic of `gemm_s8x8s32<int8_t>` (gemm.cpp:197-230): the
signed-times-signed path.  `ao`/`bo` are the zero-point pointers, dereferenced
by the `utils::everyone_is(0, *ao, *bo)` test; `use_jit` and `use_s8u8`
mirror gemm.cpp:211-217. -/
def gemm_s8s8s32_route (use_mkl_igemm avx512core : Bool)
    (transa transb offsetc : Option Char) (M N K : Option Int) (alpha : Option ℚ)
    (LDA : Option Int) (ao : Option Int) (LDB : Option Int) (bo : Option Int)
    (beta : Option ℚ) (LDC : Option Int) : IgemmRoute :=
  let st := check_gemm_x8x8x32_input offsetc transa transb M N K LDA LDB LDC alpha beta false
  if st ≠ Status.success then IgemmRoute.rejected st
  else if M.getD 0 = 0 ∨ N.getD 0 = 0 ∨ K.getD 0 = 0 then IgemmRoute.early_success
  else
    let use_jit := avx512core ∧ M.getD 0 * N.getD 0 > 1
    let use_s8u8 := (ao.getD 0 = 0 ∧ bo.getD 0 = 0) ∧ (use_mkl_igemm ∨ avx512core)
    if use_jit then IgemmRoute.gemm_driver
    else if use_s8u8 then IgemmRoute.simple_gemm
    else IgemmRoute.ref_gemm

/-- Embedding of `gemm_s8x8s32<int8_t>` (gemm.cpp:197-230), backends as
parameters. -/
def gemm_s8s8s32 (use_mkl_igemm avx512core : Bool)
    (transa transb offsetc : Option Char) (M N K : Option Int) (alpha : Option ℚ)
    (A : Option MatZ) (LDA : Option Int) (ao : Option Int)
    (B : Option MatZ) (LDB : Option Int) (bo : Option Int)
    (beta : Option ℚ) (C : Option MatZ) (LDC : Option Int) (co : Option (Nat → Int))
    (driverK simpleK refK : Option MatZ → Status × Option MatZ) :
    Status × Option MatZ :=
  match gemm_s8s8s32_route use_mkl_igemm avx512core transa transb offsetc M N K
      alpha LDA ao LDB bo beta LDC with
  | IgemmRoute.rejected s => (s, C)
  | IgemmRoute.early_success => (Status.success, C)
  | IgemmRoute.cblas_igemm => (Status.success, C)
  | IgemmRoute.gemm_driver => driverK C
  | IgemmRoute.simple_gemm => simpleK C
  | IgemmRoute.ref_gemm => refK C

/-- The branch `mkldnn_gemm_bf16bf16f32` (gemm.cpp:267-288) takes. -/
inductive Bf16Route where
  | rejected (s : Status)
  | gemm_driver
deriving DecidableEq, Repr

/-- Routing logic of `mkldnn_gemm_bf16bf16f32` (gemm.cpp:267-288): validate,
then `gemm_driver` under `mayiuse(avx512_core)`, else `mkldnn_unimplemented`. -/
def gemm_bf16bf16f32_route (avx512core : Bool)
    (transa transb : Option Char) (M N K : Option Int) (alpha : Option ℚ)
    (lda ldb : Option Int) (beta : Option ℚ) (ldc : Option Int) : Bf16Route :=
  let st := check_gemm_input transa transb M N K lda ldb ldc alpha beta false
  if st ≠ Status.success then Bf16Route.rejected st
  else if avx512core then Bf16Route.gemm_driver
  else Bf16Route.rejected Status.unimplemented

/-- Modelled from the spec: the reference kernel `ref_gemm<float>`
(an external collaborator, not under src/) computes
`C := alpha * op(A) * op(B) + beta * C` (GLOSSARY: GEMM) and adds the bias
vector to each output column when one is supplied (§4.1: non-vendor routes
accept bias as a native kernel parameter). -/
def ref_gemm_model (isTransA isTransB : Bool) (m n k : Int) (alpha : ℚ)
    (A B : MatQ) (beta : ℚ) (bias : Option (Nat → ℚ)) (Cm : MatQ) : MatQ :=
  fun i j =>
    if (i : Int) < m ∧ (j : Int) < n then
      alpha * (((List.range k.toNat).map (fun l =>
          (if isTransA then A l i else A i l) *
          (if isTransB then B j l else B l j))).sum)
        + beta * Cm i j
        + (match bias with | some bv => bv i | none => 0)
    else Cm i j

/-- The claimed (C2) three-way routing decision of the signed-times-signed
8-bit path, as a predicate on the route actually taken: the generated-kernel
driver exactly when `avx512_core` is usable and `M*N > 1`; otherwise the
simplified fallback exactly when both zero-points are 0 (and, in builds
without the vendor integer GEMM, `avx512_core` is usable); otherwise the
reference kernel. -/
def s8s8_route_decision_spec (use_mkl_igemm avx512core : Bool)
    (m n aov bov : Int) (r : IgemmRoute) : Prop :=
  (r = IgemmRoute.gemm_driver ↔ (avx512core = true ∧ m * n > 1)) ∧
  (r = IgemmRoute.simple_gemm ↔
    (¬ (avx512core = true ∧ m * n > 1) ∧ aov = 0 ∧ bov = 0 ∧
      (use_mkl_igemm = true ∨ avx512core = true))) ∧
  (r = IgemmRoute.ref_gemm ↔
    (¬ (avx512core = true ∧ m * n > 1) ∧
      ¬ (aov = 0 ∧ bov = 0 ∧ (use_mkl_igemm = true ∨ avx512core = true))))

/-- Concrete probe for claim C6: a well-formed request (all scalar-parameter
pointers non-null, shapes valid) whose data pointers `A`, `B`, `C` are all
null, run on the aarch64 no-CBLAS build with a detector backend in the
reference slot.  If null data pointers were validated, this would be
rejected; instead the reference backend runs. -/
def c6_probe : Status × Option MatQ :=
  extended_sgemm false true false false (some 'N') (some 'N')
    (some 1) (some 1) (some 1) (some 1) none (some 1) none (some 1) (some 0)
    none (some 1) none false
    (fun c => c) (fun c => (Status.success, c)) (fun c => (Status.success, c))
    (fun _ => (Status.success, some (fun _ _ => 42)))

/-- Concrete probe for claim C4: a valid request with `M = N = 1`, `K = 0`,
`alpha = 1`, `beta = 0`, no bias, and `C = [[5]]`, run on the aarch64
no-CBLAS build with the spec-modelled reference kernel in the reference
slot. -/
def c4_probe : Status × Option MatQ :=
  extended_sgemm false true false false (some 'N') (some 'N')
    (some 1) (some 1) (some 0) (some 1) (some (fun _ _ => 0)) (some 1)
    (some (fun _ _ => 0)) (some 1) (some 0) (some (fun _ _ => 5)) (some 1)
    none false
    (fun c => c) (fun c => (Status.success, c)) (fun c => (Status.success, c))
    (fun c => (Status.success,
      c.map (ref_gemm_model false false 1 1 0 1 (fun _ _ => 0) (fun _ _ => 0) 0 none)))

end DnnlGemm

namespace DnnlThread

/-- Modelled from the spec: `balance211(total, workerCount, workerId)` (declared
in mkldnn_thread.hpp, which is not under src/) "splits `total` units into
`workerCount` contiguous, near-equal ranges.  The remainder
`total mod workerCount` is distributed as one extra unit each to the
lowest-indexed `remainder` workers." (§4.2).  Returns the half-open range
`[start, end)` of worker `i`. -/
def balance211 (total n i : Nat) : Nat × Nat :=
  let q := total / n
  let r := total % n
  let start := if i < r then i * (q + 1) else r * (q + 1) + (i - r) * q
  let size := if i < r then q + 1 else q
  (start, start + size)

/-- Modelled from the spec: `utils::nd_iterator_init` (declared in utils.hpp,
which is not under src/) "converts the range's starting linear index into an
N-tuple coordinate by mixed-radix decomposition against `extents` (innermost
dimension varies fastest, matching row-major iteration)" (§4.2).  The
coordinate list is outermost-first, innermost last. -/
def nd_iterator_init : List Nat → Nat → List Nat
  | [], _ => []
  | d :: ds, i => i / ds.prod % d :: nd_iterator_init ds i

/-- Modelled from the spec: `utils::nd_iterator_step` (declared in utils.hpp,
which is not under src/) "advances the coordinate incrementally in O(1) per
step rather than recomputing the decomposition from scratch" (§4.2): an
odometer advance of the innermost digit with carry propagation outward.
Returns the new coordinate and the carry-out flag. -/
def nd_iterator_step : List Nat → List Nat → List Nat × Bool
  | c :: cs, d :: ds =>
    let inner := nd_iterator_step cs ds
    if inner.2 then
      if c + 1 = d then (0 :: inner.1, true) else ((c + 1) :: inner.1, false)
    else (c :: inner.1, false)
  | _, _ => ([], true)

/-- The coordinate sequence produced by the `for_nd` loop body: starting from
coordinate `cs`, record `cnt` coordinates, stepping with `nd_iterator_step`
between them (src/src/common/mkldnn_thread_parallel_nd.hpp:52-55). -/
def iter_collect (ds : List Nat) : Nat → List Nat → List (List Nat)
  | 0, _ => []
  | cnt + 1, cs => cs :: iter_collect ds cnt (nd_iterator_step cs ds).1

/-- Embedding of the one-dimensional `for_nd` overload
(src/src/common/mkldnn_thread_parallel_nd.hpp:36-41): no zero-extent guard,
the range `[d0, end)` from `balance211` is visited directly.  The result is
the list of values at which `f` is invoked, in order. -/
def for_nd1 (ithr nthr : Nat) (D0 : Nat) : List Nat :=
  let se := balance211 D0 nthr ithr
  List.range' se.1 (se.2 - se.1)

/-- Embedding of the multi-dimensional `for_nd` overloads
(src/src/common/mkldnn_thread_parallel_nd.hpp:43-123, arities 2-6, written
once over a list of extents): compute `work_amount` as the product of the
extents, return if it is zero, balance, initialize the coordinate by
mixed-radix decomposition of `start`, and step once per iteration.  The
result is the list of coordinate tuples at which `f` is invoked, in order. -/
def for_nd (ithr nthr : Nat) (ds : List Nat) : List (List Nat) :=
  let work_amount := ds.prod
  if work_amount = 0 then []
  else
    let se := balance211 work_amount nthr ithr
    iter_collect ds (se.2 - se.1) (nd_iterator_init ds se.1)

/-- All coordinates visited across the whole worker team, worker 0 first. -/
def for_nd_all (nthr : Nat) (ds : List Nat) : List (List Nat) :=
  (List.range nthr).flatMap (fun ithr => for_nd ithr nthr ds)

/-- All indices visited across the team by the one-dimensional overload. -/
def for_nd1_all (nthr : Nat) (D0 : Nat) : List Nat :=
  (List.range nthr).flatMap (fun ithr => for_nd1 ithr nthr D0)

/-- The full Cartesian product of the extents in row-major order (innermost
dimension varying fastest): the reference enumeration the spec promises
`for_nd` covers exactly once across workers. -/
def allCoords : List Nat → List (List Nat)
  | [] => [[]]
  | d :: ds => (List.range d).flatMap (fun x => (allCoords ds).map (fun cs => x :: cs))

/-- The claimed partition properties of `balance211` (claim C7), for a given
`total` and worker count `n`: pairwise disjointness, coverage of `[0, total)`,
ranges staying inside `[0, total]`, each size `⌊total/n⌋` or `⌈total/n⌉` with
the first `total % n` workers receiving the larger size, and determinism. -/
def balance211_partition_spec (total n : Nat) : Prop :=
  (∀ i j, i < j → j < n → (balance211 total n i).2 ≤ (balance211 total n j).1) ∧
  (∀ x, x < total → ∃ i, i < n ∧ (balance211 total n i).1 ≤ x ∧ x < (balance211 total n i).2) ∧
  (∀ i, i < n → (balance211 total n i).1 ≤ (balance211 total n i).2 ∧
    (balance211 total n i).2 ≤ total) ∧
  (∀ i, i < n →
    (balance211 total n i).2 - (balance211 total n i).1 =
      (if i < total % n then total / n + 1 else total / n)) ∧
  (∀ i, i < n →
    (balance211 total n i).2 - (balance211 total n i).1 = total / n ∨
    (balance211 total n i).2 - (balance211 total n i).1 = (total + n - 1) / n) ∧
  (∀ i, balance211 total n i = balance211 total n i)

/-- A coordinate tuple lies inside the iteration space: same arity as the
extent list and pointwise strictly below it. -/
def inSpace : List Nat → List Nat → Bool
  | [], [] => true
  | c :: cs, d :: ds => decide (c < d) && inSpace cs ds
  | _, _ => false

/-- The claimed coverage properties of `for_nd` (claim C8) for a team of
`nthr` workers over extents `ds`: across the team every coordinate of the
Cartesian product is visited exactly once; each worker visits the mixed-radix
decompositions of its linear range in increasing (row-major) order; a zero
extent makes every worker's call a no-op, including the one-dimensional
overload, which has no explicit zero guard. -/
def for_nd_coverage_spec (nthr : Nat) (ds : List Nat) : Prop :=
  (∀ cs : List Nat,
    (for_nd_all nthr ds).count cs = (if inSpace cs ds then 1 else 0)) ∧
  (∀ ithr,
    for_nd ithr nthr ds =
      (List.range' (balance211 ds.prod nthr ithr).1
        ((balance211 ds.prod nthr ithr).2 - (balance211 ds.prod nthr ithr).1)).map
        (nd_iterator_init ds)) ∧
  (0 ∈ ds → ∀ ithr, for_nd ithr nthr ds = []) ∧
  (∀ ithr, for_nd1 ithr nthr 0 = []) ∧
  (∀ D0 x, (for_nd1_all nthr D0).count x = if x < D0 then 1 else 0)

end DnnlThread

namespace DnnlJit

/-- Machine word modulus of the 64-bit target: `2 ^ 64`. -/
def W64 : Nat := 18446744073709551616

/-- The C `INT_MAX` bound used by the large-offset tests: `2 ^ 31 - 1`. -/
def INT_MAX : Nat := 2147483647

/-- A register file: general-purpose register id to 64-bit value.  Register
values are kept reduced modulo `W64`. -/
abbrev RegFile := Nat → Nat

/-- Functional update of one register, as performed by `mov`/`add`/`sub`. -/
def setReg (rf : RegFile) (r : Nat) (v : Nat) : RegFile :=
  fun x => if x = r then v else rf x

/-- An Xbyak addressing expression as built by the two helpers: a base
register, an optional scaled index register, and a signed displacement
(`RegExp() + base + offt [+ reg * scale]`). -/
structure RegExpr where
  base : Nat
  index : Option (Nat × Nat)
  disp : Int
deriving DecidableEq, Repr

/-- An Xbyak address operand: the expression plus the broadcast flag
(`ptr_b`/`zword_b` versus `ptr`/`zword`). -/
structure Address where
  expr : RegExpr
  bcast : Bool
deriving DecidableEq, Repr

/-- The effective address an expression denotes under a register file:
base plus scaled index plus displacement, reduced modulo the 64-bit word. -/
def evalAddr (rf : RegFile) (a : Address) : Nat :=
  (((rf a.expr.base : Int) +
      (match a.expr.index with
       | some p => (rf p.1 : Int) * (p.2 : Int)
       | none => 0) + a.expr.disp) % (W64 : Int)).toNat

/-- The direct-immediate addressing form `ptr[reg_out + offt]`, encoded
unconditionally (the small-offset branch's form). -/
def direct_addr (reg_out : Nat) (offt : Nat) (bcast : Bool) : Address :=
  ⟨⟨reg_out, none, (offt : Int)⟩, bcast⟩

/-- Embedding of `make_safe_addr` (src/src/cpu/jit_generator.hpp:430-438):
for `offt > INT_MAX` materialize `offt` into `tmp_reg` with `mov` and address
via `ptr[reg_out + tmp_reg]`; otherwise encode `offt` as an immediate
displacement.  Returns the register file after the helper ran and the address
operand it built. -/
def make_safe_addr (rf : RegFile) (reg_out : Nat) (offt : Nat) (tmp_reg : Nat)
    (bcast : Bool) : RegFile × Address :=
  if offt > INT_MAX then
    (setReg rf tmp_reg (offt % W64), ⟨⟨reg_out, some (tmp_reg, 1), 0⟩, bcast⟩)
  else
    (rf, direct_addr reg_out offt bcast)

/-- Embedding of `safe_add` (jit_generator.hpp:449-457): `base += offt`,
materializing large offsets through `reg_offt` first.  Returns the register
file after the operation. -/
def safe_add (rf : RegFile) (base : Nat) (offt : Nat) (reg_offt : Nat) : RegFile :=
  if offt > INT_MAX then
    let rf1 := setReg rf reg_offt (offt % W64)
    setReg rf1 base ((rf1 base + rf1 reg_offt) % W64)
  else
    setReg rf base ((rf base + offt) % W64)

/-- Two's-complement 64-bit subtraction on naturals. -/
def sub64 (a b : Nat) : Nat := (a + (W64 - b % W64)) % W64

/-- Embedding of `safe_sub` (jit_generator.hpp:459-467): `base -= offt`,
materializing large offsets through `reg_offt` first. -/
def safe_sub (rf : RegFile) (base : Nat) (offt : Nat) (reg_offt : Nat) : RegFile :=
  if offt > INT_MAX then
    let rf1 := setReg rf reg_offt (offt % W64)
    setReg rf1 base (sub64 (rf1 base) (rf1 reg_offt))
  else
    setReg rf base (sub64 (rf base) offt)

/-- `EVEX_max_8b_offt` (jit_generator.hpp:271). -/
def EVEX_max_8b_offt : Int := 0x200

/-- The register id of `reg_EVEX_max_8b_offt = rbp` (jit_generator.hpp:272);
rbp is general-purpose register 5 in the x86-64 numbering. -/
def reg_EVEX_max_8b_offt : Nat := 5

/-- The final instruction of `preamble` (jit_generator.hpp:337-339): under
`mayiuse(avx512_common)`, load `2 * EVEX_max_8b_offt` into
`reg_EVEX_max_8b_offt`. -/
def preamble_EVEX_setup (avx512common : Bool) (rf : RegFile) : RegFile :=
  if avx512common then setReg rf reg_EVEX_max_8b_offt (2 * EVEX_max_8b_offt).toNat
  else rf

/-- Embedding of `EVEX_compress_addr` (jit_generator.hpp:398-428): offsets in
`[EVEX_max_8b_offt, 3 * EVEX_max_8b_offt)` are rebased by
`-2 * EVEX_max_8b_offt` and compensated with `reg_EVEX_max_8b_offt * 1`;
offsets in `[3 * EVEX_max_8b_offt, 5 * EVEX_max_8b_offt)` are rebased by
`-4 * EVEX_max_8b_offt` and compensated with `reg_EVEX_max_8b_offt * 2`;
all other offsets are encoded directly. -/
def EVEX_compress_addr (base : Nat) (raw_offt : Int) (bcast : Bool) : Address :=
  if EVEX_max_8b_offt ≤ raw_offt ∧ raw_offt < 3 * EVEX_max_8b_offt then
    ⟨⟨base, some (reg_EVEX_max_8b_offt, 1), raw_offt - 2 * EVEX_max_8b_offt⟩, bcast⟩
  else if 3 * EVEX_max_8b_offt ≤ raw_offt ∧ raw_offt < 5 * EVEX_max_8b_offt then
    ⟨⟨base, some (reg_EVEX_max_8b_offt, 2), raw_offt - 4 * EVEX_max_8b_offt⟩, bcast⟩
  else
    ⟨⟨base, none, raw_offt⟩, bcast⟩

/-- The claimed (C9) equivalence of the two addressing forms: whichever
branch `make_safe_addr` takes, the resulting operand denotes the same
effective address as the direct-immediate form `ptr[reg_out + offt]` and
carries the same broadcast flag; `safe_add`/`safe_sub` leave in the base
register exactly the value the direct-immediate `add`/`sub` would leave. -/
def safe_addr_equiv_spec (rf : RegFile) (reg_out offt tmp : Nat)
    (bcast : Bool) : Prop :=
  evalAddr (make_safe_addr rf reg_out offt tmp bcast).1
      (make_safe_addr rf reg_out offt tmp bcast).2 =
    evalAddr rf (direct_addr reg_out offt bcast) ∧
  ((make_safe_addr rf reg_out offt tmp bcast).2).bcast = bcast ∧
  (∀ base, tmp ≠ base →
    safe_add rf base offt tmp base = (rf base + offt) % W64) ∧
  (∀ base, tmp ≠ base →
    safe_sub rf base offt tmp base = sub64 (rf base) offt)

/-- The claimed (C10) behavior of `EVEX_compress_addr`: the returned operand
always denotes `base + offt`; in `[0x200, 0x600)` the displacement is
rebased by `-0x400` with `rbp * 1` compensation, in `[0x600, 0xA00)` by
`-0x800` with `rbp * 2`, and outside both bands `offt` is encoded
directly. -/
def EVEX_compress_spec (rf : RegFile) (base : Nat) (offt : Int)
    (bcast : Bool) : Prop :=
  evalAddr rf (EVEX_compress_addr base offt bcast) =
    (rf base + offt.toNat) % W64 ∧
  (0x200 ≤ offt ∧ offt < 0x600 →
    EVEX_compress_addr base offt bcast =
      ⟨⟨base, some (reg_EVEX_max_8b_offt, 1), offt - 0x400⟩, bcast⟩) ∧
  (0x600 ≤ offt ∧ offt < 0xA00 →
    EVEX_compress_addr base offt bcast =
      ⟨⟨base, some (reg_EVEX_max_8b_offt, 2), offt - 0x800⟩, bcast⟩) ∧
  (¬ (0x200 ≤ offt ∧ offt < 0x600) → ¬ (0x600 ≤ offt ∧ offt < 0xA00) →
    EVEX_compress_addr base offt bcast = ⟨⟨base, none, offt⟩, bcast⟩)

end DnnlJit

/-! ## Theorems about the Gemm Dispatcher -/

namespace DnnlGemm

/-- Reduction of `check_gemm_input` when every scalar-parameter pointer is
non-null. -/
lemma check_gemm_input_some (ta tb : Char) (m n k la lb lc : Int) (a b : ℚ)
    (wb : Bool) :
    check_gemm_input (some ta) (some tb) (some m) (some n) (some k)
      (some la) (some lb) (some lc) (some a) (some b) wb =
    (if wb ∧ b ≠ 0 then Status.unimplemented
     else if ¬ (ta ∈ transSyms ∧ tb ∈ transSyms ∧ 0 ≤ m ∧ 0 ≤ n ∧ 0 ≤ k) then
       Status.invalid_arguments
     else if ¬ (max 1 (if ta ∈ transYes then k else m) ≤ la ∧
          max 1 (if tb ∈ transYes then n else k) ≤ lb ∧ max 1 m ≤ lc) then
       Status.invalid_arguments
     else Status.success) := by
  simp [check_gemm_input]

/-- `check_gemm_input` rejects any null scalar-parameter pointer. -/
lemma check_gemm_input_null (transa transb : Option Char)
    (M N K lda ldb ldc : Option Int) (alpha beta : Option ℚ) (wb : Bool)
    (h : transa.isNone ∨ transb.isNone ∨ M.isNone ∨ N.isNone ∨ K.isNone ∨
      lda.isNone ∨ ldb.isNone ∨ ldc.isNone ∨ alpha.isNone ∨ beta.isNone) :
    check_gemm_input transa transb M N K lda ldb ldc alpha beta wb =
      Status.invalid_arguments := by
  rw [check_gemm_input, if_pos h]

/-- C1: For every transpose-flag pair drawn from `{'N','n','T','t'} ×
{'N','n','T','t'}` and all non-negative M, N, K (all scalar-parameter
pointers non-null, no bias), `check_gemm_input` returns `success` iff
`lda ≥ max(1, rows of A after transposition)` (K when A is transposed, else
M), `ldb ≥ max(1, rows of B after transposition)` (N when B is transposed,
else K) and `ldc ≥ max(1, M)`; any transpose character outside the four, or
any negative extent, yields `invalid_arguments`. -/
theorem check_gemm_input_validation_iff (ta tb : Char) (m n k la lb lc : Int)
    (a b : ℚ) :
    (check_gemm_input (some ta) (some tb) (some m) (some n) (some k)
        (some la) (some lb) (some lc) (some a) (some b) false = Status.success ↔
      (ta ∈ transSyms ∧ tb ∈ transSyms ∧ 0 ≤ m ∧ 0 ≤ n ∧ 0 ≤ k ∧
       max 1 (if ta ∈ transYes then k else m) ≤ la ∧
       max 1 (if tb ∈ transYes then n else k) ≤ lb ∧ max 1 m ≤ lc)) ∧
    (¬ (ta ∈ transSyms ∧ tb ∈ transSyms ∧ 0 ≤ m ∧ 0 ≤ n ∧ 0 ≤ k) →
      check_gemm_input (some ta) (some tb) (some m) (some n) (some k)
        (some la) (some lb) (some lc) (some a) (some b) false =
        Status.invalid_arguments) := by
  rw [check_gemm_input_some]
  simp only [Bool.false_eq_true, false_and, if_false]
  constructor
  · split_ifs with h1 h2 <;> simp_all
  · intro h
    rw [if_pos h]

/-- Witness for C1 at a concrete malformed flag. -/
theorem check_gemm_input_validation_iff_witness :
    ¬ (('X' : Char) ∈ transSyms ∧ ('N' : Char) ∈ transSyms ∧ (0 : Int) ≤ 1 ∧
        (0 : Int) ≤ 1 ∧ (0 : Int) ≤ 1) ∧
    check_gemm_input (some 'X') (some 'N') (some 1) (some 1) (some 1)
      (some 1) (some 1) (some 1) (some 1) (some 1) false =
      Status.invalid_arguments :=
  ⟨by decide,
   (check_gemm_input_validation_iff 'X' 'N' 1 1 1 1 1 1 1 1).2 (by decide)⟩

/-- `check_gemm_x8x8x32_input` rejects a null `offsetc` or any null scalar
pointer of the inner check. -/
lemma check_gemm_x8x8x32_input_null (offsetc transa transb : Option Char)
    (M N K lda ldb ldc : Option Int) (alpha beta : Option ℚ) (wb : Bool)
    (h : offsetc.isNone ∨ transa.isNone ∨ transb.isNone ∨ M.isNone ∨ N.isNone ∨
      K.isNone ∨ lda.isNone ∨ ldb.isNone ∨ ldc.isNone ∨ alpha.isNone ∨ beta.isNone) :
    check_gemm_x8x8x32_input offsetc transa transb M N K lda ldb ldc alpha beta wb =
      Status.invalid_arguments := by
  cases offsetc with
  | none => rfl
  | some oc =>
    simp only [Option.isNone_some, Bool.false_eq_true, false_or] at h
    rw [check_gemm_x8x8x32_input]
    split_ifs with hoc
    · exact check_gemm_input_null transa transb M N K lda ldb ldc alpha beta wb h
    · rfl

/-- A rejected `extended_sgemm` request is answered with the validation
status and the output pointer is forwarded untouched, whatever the
backends. -/
lemma extended_sgemm_rejected (useCblas armArch mic avx : Bool)
    (transa transb : Option Char) (M N K : Option Int) (alpha : Option ℚ)
    (A : Option MatQ) (lda : Option Int) (B : Option MatQ) (ldb : Option Int)
    (beta : Option ℚ) (C : Option MatQ) (ldc : Option Int)
    (bias : Option (Nat → ℚ)) (force : Bool)
    (cblasK : Option MatQ → Option MatQ)
    (jit512K driverK refK : Option MatQ → Status × Option MatQ)
    (h : check_gemm_input transa transb M N K lda ldb ldc alpha beta bias.isSome ≠
      Status.success) :
    extended_sgemm useCblas armArch mic avx transa transb M N K alpha A lda B ldb
      beta C ldc bias force cblasK jit512K driverK refK =
    (check_gemm_input transa transb M N K lda ldb ldc alpha beta bias.isSome, C) := by
  simp only [extended_sgemm, extended_sgemm_route]
  rw [if_pos h]

/-- A rejected `gemm_s8x8s32<uint8_t>` request is answered with the
validation status, output untouched. -/
lemma gemm_s8u8s32_rejected (umi avx : Bool) (transa transb offsetc : Option Char)
    (M N K : Option Int) (alpha : Option ℚ) (A : Option MatZ) (LDA ao : Option Int)
    (B : Option MatZ) (LDB bo : Option Int) (beta : Option ℚ) (C : Option MatZ)
    (LDC : Option Int) (co : Option (Nat → Int))
    (cblasK : Option MatZ → Option MatZ)
    (driverK refK : Option MatZ → Status × Option MatZ)
    (h : check_gemm_x8x8x32_input offsetc transa transb M N K LDA LDB LDC alpha beta
      false ≠ Status.success) :
    gemm_s8u8s32 umi avx transa transb offsetc M N K alpha A LDA ao B LDB bo beta
      C LDC co cblasK driverK refK =
    (check_gemm_x8x8x32_input offsetc transa transb M N K LDA LDB LDC alpha beta false,
      C) := by
  simp only [gemm_s8u8s32, gemm_s8u8s32_route]
  rw [if_pos h]

/-- A rejected `gemm_s8x8s32<int8_t>` request is answered with the validation
status, output untouched. -/
lemma gemm_s8s8s32_rejected (umi avx : Bool) (transa transb offsetc : Option Char)
    (M N K : Option Int) (alpha : Option ℚ) (A : Option MatZ) (LDA ao : Option Int)
    (B : Option MatZ) (LDB bo : Option Int) (beta : Option ℚ) (C : Option MatZ)
    (LDC : Option Int) (co : Option (Nat → Int))
    (driverK simpleK refK : Option MatZ → Status × Option MatZ)
    (h : check_gemm_x8x8x32_input offsetc transa transb M N K LDA LDB LDC alpha beta
      false ≠ Status.success) :
    gemm_s8s8s32 umi avx transa transb offsetc M N K alpha A LDA ao B LDB bo beta
      C LDC co driverK simpleK refK =
    (check_gemm_x8x8x32_input offsetc transa transb M N K LDA LDB LDC alpha beta false,
      C) := by
  simp only [gemm_s8s8s32, gemm_s8s8s32_route]
  rw [if_pos h]

/-- C2: in the signed-times-signed 8-bit path, once validation succeeded and
all extents are nonzero, the route is: generated-kernel driver iff
`avx512_core ∧ M*N > 1`; otherwise the simplified fallback iff both
zero-points are 0 and (without the vendor integer GEMM) `avx512_core`;
otherwise the reference kernel — the numeric zero-point values decide. -/
theorem gemm_s8s8s32_route_decision (use_mkl_igemm avx512core : Bool)
    (ta tb oc : Char) (m n k la lb lc : Int) (a b : ℚ) (aov bov : Int)
    (hcheck : check_gemm_x8x8x32_input (some oc) (some ta) (some tb) (some m)
      (some n) (some k) (some la) (some lb) (some lc) (some a) (some b) false =
      Status.success)
    (hm : m ≠ 0) (hn : n ≠ 0) (hk : k ≠ 0) :
    s8s8_route_decision_spec use_mkl_igemm avx512core m n aov bov
      (gemm_s8s8s32_route use_mkl_igemm avx512core (some ta) (some tb) (some oc)
        (some m) (some n) (some k) (some a) (some la) (some aov) (some lb)
        (some bov) (some b) (some lc)) := by
  simp only [s8s8_route_decision_spec, gemm_s8s8s32_route, hcheck, ne_eq,
    not_true_eq_false, if_false, Option.getD_some]
  rw [if_neg (by simp [hm, hn, hk])]
  split_ifs with hjit hs8 <;> simp_all

/-- Witness for C2: `avx512_core` present, `M = N = K = 2`, zero-points 0:
the generated-kernel driver is chosen. -/
theorem gemm_s8s8s32_route_decision_witness :
    check_gemm_x8x8x32_input (some 'F') (some 'N') (some 'N') (some 2) (some 2)
      (some 2) (some 2) (some 2) (some 2) (some 1) (some 0) false =
      Status.success ∧
    (2 : Int) ≠ 0 ∧
    s8s8_route_decision_spec false true 2 2 0 0
      (gemm_s8s8s32_route false true (some 'N') (some 'N') (some 'F')
        (some 2) (some 2) (some 2) (some 1) (some 2) (some 0) (some 2)
        (some 0) (some 0) (some 2)) :=
  ⟨by decide, by decide,
   gemm_s8s8s32_route_decision false true 'N' 'N' 'F' 2 2 2 2 2 2 1 0 0 0
     (by decide) (by decide) (by decide) (by decide)⟩

/-- Counterexample to C3 as stated: a request with a malformed transpose flag
`'X'` but a bias and a nonzero beta is answered `unimplemented`, not
`invalid_arguments` — the bias/beta check precedes the flag check. -/
theorem check_gemm_input_unimplemented_before_flags :
    check_gemm_input (some 'X') (some 'N') (some 1) (some 1) (some 1)
      (some 1) (some 1) (some 1) (some 1) (some 1) true = Status.unimplemented ∧
    ¬ (('X' : Char) ∈ transSyms) ∧
    Status.unimplemented ≠ Status.invalid_arguments := by
  refine ⟨by decide, by decide, by decide⟩

/-- C3 (amended): null-pointer checks run first; then, if a bias is supplied
with beta ≠ 0, `unimplemented` is returned before the flag/extent/stride
checks; for every request without that combination the result is never
`unimplemented` (only `invalid_arguments` or `success`); and a rejected
request produces no side effect: `extended_sgemm` forwards the output
pointer untouched, whatever the backends. -/
theorem check_gemm_input_validation_order :
    (∀ (transa transb : Option Char) (M N K lda ldb ldc : Option Int)
        (alpha beta : Option ℚ) (wb : Bool),
      (transa.isNone ∨ transb.isNone ∨ M.isNone ∨ N.isNone ∨ K.isNone ∨
        lda.isNone ∨ ldb.isNone ∨ ldc.isNone ∨ alpha.isNone ∨ beta.isNone) →
      check_gemm_input transa transb M N K lda ldb ldc alpha beta wb =
        Status.invalid_arguments) ∧
    (∀ (ta tb : Char) (m n k la lb lc : Int) (a b : ℚ),
      b ≠ 0 →
      check_gemm_input (some ta) (some tb) (some m) (some n) (some k)
        (some la) (some lb) (some lc) (some a) (some b) true =
        Status.unimplemented) ∧
    (∀ (ta tb : Char) (m n k la lb lc : Int) (a b : ℚ) (wb : Bool),
      ¬ (wb = true ∧ b ≠ 0) →
      check_gemm_input (some ta) (some tb) (some m) (some n) (some k)
        (some la) (some lb) (some lc) (some a) (some b) wb ≠
        Status.unimplemented) ∧
    (∀ (useCblas armArch mic avx force : Bool) (transa transb : Option Char)
        (M N K : Option Int) (alpha : Option ℚ) (A : Option MatQ)
        (lda : Option Int) (B : Option MatQ) (ldb : Option Int)
        (beta : Option ℚ) (C : Option MatQ) (ldc : Option Int)
        (bias : Option (Nat → ℚ)) (cblasK : Option MatQ → Option MatQ)
        (jit512K driverK refK : Option MatQ → Status × Option MatQ),
      check_gemm_input transa transb M N K lda ldb ldc alpha beta bias.isSome ≠
        Status.success →
      extended_sgemm useCblas armArch mic avx transa transb M N K alpha A lda
        B ldb beta C ldc bias force cblasK jit512K driverK refK =
      (check_gemm_input transa transb M N K lda ldb ldc alpha beta bias.isSome,
        C)) := by
  refine ⟨check_gemm_input_null, ?_, ?_, ?_⟩
  · intro ta tb m n k la lb lc a b hb
    rw [check_gemm_input_some, if_pos ⟨rfl, hb⟩]
  · intro ta tb m n k la lb lc a b wb hwb
    rw [check_gemm_input_some, if_neg hwb]
    split_ifs <;> simp
  · intro useCblas armArch mic avx force transa transb M N K alpha A lda B ldb
      beta C ldc bias cblasK jit512K driverK refK h
    exact extended_sgemm_rejected useCblas armArch mic avx transa transb M N K
      alpha A lda B ldb beta C ldc bias force cblasK jit512K driverK refK h

/-- Witness for C3 (amended), exercising the bias/beta conjunct at beta = 1. -/
theorem check_gemm_input_validation_order_witness :
    (1 : ℚ) ≠ 0 ∧
    check_gemm_input (some 'N') (some 'N') (some 1) (some 1) (some 1)
      (some 1) (some 1) (some 1) (some 1) (some 1) true = Status.unimplemented :=
  ⟨by norm_num,
   check_gemm_input_validation_order.2.1 'N' 'N' 1 1 1 1 1 1 1 1 (by norm_num)⟩

/-- C5: on the bias-accepting real-valued entry point, a request with a
non-null bias and beta ≠ 0 (scalar pointers non-null) is rejected with
`unimplemented` and the output pointer is forwarded untouched, whatever the
build, capabilities and backends. -/
theorem extended_sgemm_bias_beta_unimplemented
    (useCblas armArch mic avx force : Bool) (ta tb : Char)
    (m n k la lb lc : Int) (a b : ℚ) (hb : b ≠ 0)
    (A B C : Option MatQ) (bv : Nat → ℚ)
    (cblasK : Option MatQ → Option MatQ)
    (jit512K driverK refK : Option MatQ → Status × Option MatQ) :
    extended_sgemm useCblas armArch mic avx (some ta) (some tb) (some m)
      (some n) (some k) (some a) A (some la) B (some lb) (some b) C (some lc)
      (some bv) force cblasK jit512K driverK refK =
      (Status.unimplemented, C) := by
  have hc : check_gemm_input (some ta) (some tb) (some m) (some n) (some k)
      (some la) (some lb) (some lc) (some a) (some b) (some bv).isSome =
      Status.unimplemented := by
    rw [Option.isSome_some, check_gemm_input_some, if_pos ⟨rfl, hb⟩]
  rw [extended_sgemm_rejected useCblas armArch mic avx (some ta) (some tb)
      (some m) (some n) (some k) (some a) A (some la) B (some lb) (some b) C
      (some lc) (some bv) force cblasK jit512K driverK refK (by rw [hc]; simp),
    hc]

/-- Witness for C5 at a concrete request with beta = 1. -/
theorem extended_sgemm_bias_beta_unimplemented_witness :
    (1 : ℚ) ≠ 0 ∧
    extended_sgemm false true false false (some 'N') (some 'N') (some 1)
      (some 1) (some 1) (some 1) none (some 1) none (some 1) (some 1) none
      (some 1) (some (fun _ => 0)) false (fun c => c)
      (fun c => (Status.success, c)) (fun c => (Status.success, c))
      (fun c => (Status.success, c)) = (Status.unimplemented, none) :=
  ⟨by norm_num,
   extended_sgemm_bias_beta_unimplemented false true false false false 'N' 'N'
     1 1 1 1 1 1 1 1 (by norm_num) none none none (fun _ => 0) (fun c => c)
     (fun c => (Status.success, c)) (fun c => (Status.success, c))
     (fun c => (Status.success, c))⟩

/-- Counterexample to C6 as stated: a request whose data pointers `A`, `B`,
`C` are all null but whose scalar parameters are valid passes validation and
reaches a backend (the detector backend's output is returned): null data
pointers are not checked. -/
theorem extended_sgemm_null_data_not_checked :
    c6_probe.1 = Status.success ∧ c6_probe.2.isSome = true ∧
    Status.success ≠ Status.invalid_arguments := by
  refine ⟨by decide, by decide, by decide⟩

/-- C6 (amended): on every entry point, a null scalar-parameter pointer
(`transa`/`transb`/`M`/`N`/`K`/`lda`/`ldb`/`ldc`/`alpha`/`beta`, plus
`offsetc` on the integer paths) yields `invalid_arguments` with the output
pointer untouched; the operand data pointers `A`, `B` and the output pointer
`C` are not among the checked pointers. -/
theorem gemm_null_scalar_pointer_invalid :
    (∀ (useCblas armArch mic avx force : Bool) (transa transb : Option Char)
        (M N K : Option Int) (alpha : Option ℚ) (A : Option MatQ)
        (lda : Option Int) (B : Option MatQ) (ldb : Option Int)
        (beta : Option ℚ) (C : Option MatQ) (ldc : Option Int)
        (bias : Option (Nat → ℚ)) (cblasK : Option MatQ → Option MatQ)
        (jit512K driverK refK : Option MatQ → Status × Option MatQ),
      (transa.isNone ∨ transb.isNone ∨ M.isNone ∨ N.isNone ∨ K.isNone ∨
        lda.isNone ∨ ldb.isNone ∨ ldc.isNone ∨ alpha.isNone ∨ beta.isNone) →
      extended_sgemm useCblas armArch mic avx transa transb M N K alpha A lda
        B ldb beta C ldc bias force cblasK jit512K driverK refK =
        (Status.invalid_arguments, C)) ∧
    (∀ (umi avx : Bool) (transa transb offsetc : Option Char)
        (M N K : Option Int) (alpha : Option ℚ) (A : Option MatZ)
        (LDA ao : Option Int) (B : Option MatZ) (LDB bo : Option Int)
        (beta : Option ℚ) (C : Option MatZ) (LDC : Option Int)
        (co : Option (Nat → Int)) (cblasK : Option MatZ → Option MatZ)
        (driverK refK : Option MatZ → Status × Option MatZ),
      (offsetc.isNone ∨ transa.isNone ∨ transb.isNone ∨ M.isNone ∨ N.isNone ∨
        K.isNone ∨ LDA.isNone ∨ LDB.isNone ∨ LDC.isNone ∨ alpha.isNone ∨
        beta.isNone) →
      gemm_s8u8s32 umi avx transa transb offsetc M N K alpha A LDA ao B LDB bo
        beta C LDC co cblasK driverK refK = (Status.invalid_arguments, C)) ∧
    (∀ (umi avx : Bool) (transa transb offsetc : Option Char)
        (M N K : Option Int) (alpha : Option ℚ) (A : Option MatZ)
        (LDA ao : Option Int) (B : Option MatZ) (LDB bo : Option Int)
        (beta : Option ℚ) (C : Option MatZ) (LDC : Option Int)
        (co : Option (Nat → Int))
        (driverK simpleK refK : Option MatZ → Status × Option MatZ),
      (offsetc.isNone ∨ transa.isNone ∨ transb.isNone ∨ M.isNone ∨ N.isNone ∨
        K.isNone ∨ LDA.isNone ∨ LDB.isNone ∨ LDC.isNone ∨ alpha.isNone ∨
        beta.isNone) →
      gemm_s8s8s32 umi avx transa transb offsetc M N K alpha A LDA ao B LDB bo
        beta C LDC co driverK simpleK refK = (Status.invalid_arguments, C)) ∧
    (∀ (avx512core : Bool) (transa transb : Option Char) (M N K : Option Int)
        (alpha : Option ℚ) (lda ldb : Option Int) (beta : Option ℚ)
        (ldc : Option Int),
      (transa.isNone ∨ transb.isNone ∨ M.isNone ∨ N.isNone ∨ K.isNone ∨
        lda.isNone ∨ ldb.isNone ∨ ldc.isNone ∨ alpha.isNone ∨ beta.isNone) →
      gemm_bf16bf16f32_route avx512core transa transb M N K alpha lda ldb beta
        ldc = Bf16Route.rejected Status.invalid_arguments) := by
  refine ⟨?_, ?_, ?_, ?_⟩
  · intro useCblas armArch mic avx force transa transb M N K alpha A lda B ldb
      beta C ldc bias cblasK jit512K driverK refK h
    have hc := check_gemm_input_null transa transb M N K lda ldb ldc alpha beta
      bias.isSome h
    rw [extended_sgemm_rejected useCblas armArch mic avx transa transb M N K
        alpha A lda B ldb beta C ldc bias force cblasK jit512K driverK refK
        (by rw [hc]; simp), hc]
  · intro umi avx transa transb offsetc M N K alpha A LDA ao B LDB bo beta C
      LDC co cblasK driverK refK h
    have hc := check_gemm_x8x8x32_input_null offsetc transa transb M N K LDA
      LDB LDC alpha beta false h
    rw [gemm_s8u8s32_rejected umi avx transa transb offsetc M N K alpha A LDA
        ao B LDB bo beta C LDC co cblasK driverK refK (by rw [hc]; simp), hc]
  · intro umi avx transa transb offsetc M N K alpha A LDA ao B LDB bo beta C
      LDC co driverK simpleK refK h
    have hc := check_gemm_x8x8x32_input_null offsetc transa transb M N K LDA
      LDB LDC alpha beta false h
    rw [gemm_s8s8s32_rejected umi avx transa transb offsetc M N K alpha A LDA
        ao B LDB bo beta C LDC co driverK simpleK refK (by rw [hc]; simp), hc]
  · intro avx512core transa transb M N K alpha lda ldb beta ldc h
    have hc := check_gemm_input_null transa transb M N K lda ldb ldc alpha beta
      false h
    simp only [gemm_bf16bf16f32_route, hc]
    rfl

/-- Witness for C6 (amended): a null `lda` pointer is rejected. -/
theorem gemm_null_scalar_pointer_invalid_witness :
    ((none : Option Char).isNone ∨ (some 'N' : Option Char).isNone ∨
      (some (1 : Int)).isNone ∨ (some (1 : Int)).isNone ∨
      (some (1 : Int)).isNone ∨ (some (1 : Int)).isNone ∨
      (some (1 : Int)).isNone ∨ (some (1 : Int)).isNone ∨
      (some (1 : ℚ)).isNone ∨ (some (1 : ℚ)).isNone) ∧
    extended_sgemm false true false false none (some 'N') (some 1) (some 1)
      (some 1) (some 1) none (some 1) none (some 1) (some 1) none (some 1)
      none false (fun c => c) (fun c => (Status.success, c))
      (fun c => (Status.success, c)) (fun c => (Status.success, c)) =
      (Status.invalid_arguments, none) :=
  ⟨by decide,
   gemm_null_scalar_pointer_invalid.1 false true false false false none
     (some 'N') (some 1) (some 1) (some 1) (some 1) none (some 1) none
     (some 1) (some 1) none (some 1) none (fun c => c)
     (fun c => (Status.success, c)) (fun c => (Status.success, c))
     (fun c => (Status.success, c)) (by decide)⟩

/-- Counterexample to C4 as stated: a valid request with `M = N = 1`,
`K = 0`, `beta = 0` and `C = [[5]]` on the aarch64 no-CBLAS build returns
`success` but the output entry is overwritten with `beta * C = 0 ≠ 5`:
`extended_sgemm` has no zero-extent early return and the reference backend
scales the output. -/
theorem extended_sgemm_zero_k_modifies_output :
    c4_probe.1 = Status.success ∧
    (c4_probe.2.getD (fun _ _ => 99)) 0 0 = 0 ∧ ((0 : ℚ) ≠ 5) := by
  have hr : c4_probe = (Status.success,
      some (ref_gemm_model false false 1 1 0 1 (fun _ _ => 0) (fun _ _ => 0) 0
        none (fun _ _ => 5))) := by rfl
  refine ⟨by rw [hr], ?_, by norm_num⟩
  rw [hr]
  simp [ref_gemm_model]

/-- C4 (amended): the quantized integer entry points answer any validated
request with a zero extent by an immediate `success` before any backend is
consulted, leaving the output pointer untouched; `extended_sgemm` has no
such early return — on the aarch64 no-CBLAS build a validated request with
`K = 0` still reaches the reference backend, which rewrites every in-range
output entry to `beta` times its old value (so the output is only unmodified
where `beta = 1` or the entry is out of range). -/
theorem gemm_zero_extent_behavior :
    (∀ (umi avx : Bool) (ta tb oc : Char) (m n k la lb lc aov bov : Int)
        (a b : ℚ) (A B C : Option MatZ) (co : Option (Nat → Int))
        (cblasK : Option MatZ → Option MatZ)
        (driverK refK : Option MatZ → Status × Option MatZ),
      check_gemm_x8x8x32_input (some oc) (some ta) (some tb) (some m) (some n)
        (some k) (some la) (some lb) (some lc) (some a) (some b) false =
        Status.success →
      (m = 0 ∨ n = 0 ∨ k = 0) →
      gemm_s8u8s32 umi avx (some ta) (some tb) (some oc) (some m) (some n)
        (some k) (some a) A (some la) (some aov) B (some lb) (some bov)
        (some b) C (some lc) co cblasK driverK refK = (Status.success, C)) ∧
    (∀ (umi avx : Bool) (ta tb oc : Char) (m n k la lb lc aov bov : Int)
        (a b : ℚ) (A B C : Option MatZ) (co : Option (Nat → Int))
        (driverK simpleK refK : Option MatZ → Status × Option MatZ),
      check_gemm_x8x8x32_input (some oc) (some ta) (some tb) (some m) (some n)
        (some k) (some la) (some lb) (some lc) (some a) (some b) false =
        Status.success →
      (m = 0 ∨ n = 0 ∨ k = 0) →
      gemm_s8s8s32 umi avx (some ta) (some tb) (some oc) (some m) (some n)
        (some k) (some a) A (some la) (some aov) B (some lb) (some bov)
        (some b) C (some lc) co driverK simpleK refK = (Status.success, C)) ∧
    (∀ (mic avx : Bool) (ta tb : Char) (m n la lb lc : Int) (a b : ℚ),
      check_gemm_input (some ta) (some tb) (some m) (some n) (some 0)
        (some la) (some lb) (some lc) (some a) (some b) false =
        Status.success →
      extended_sgemm_route false true mic avx (some ta) (some tb) (some m)
        (some n) (some 0) (some a) (some la) (some lb) (some b) (some lc)
        false false = SgemmRoute.ref_gemm) ∧
    (∀ (isTA isTB : Bool) (m n : Int) (alpha : ℚ) (A B : MatQ) (beta : ℚ)
        (Cm : MatQ) (i j : Nat),
      ref_gemm_model isTA isTB m n 0 alpha A B beta none Cm i j =
        (if ((i : Int) < m ∧ (j : Int) < n) then beta * Cm i j else Cm i j)) := by
  refine ⟨?_, ?_, ?_, ?_⟩
  · intro umi avx ta tb oc m n k la lb lc aov bov a b A B C co cblasK driverK
      refK hcheck hz
    simp only [gemm_s8u8s32, gemm_s8u8s32_route, hcheck, ne_eq,
      not_true_eq_false, if_false, Option.getD_some]
    rw [if_pos hz]
  · intro umi avx ta tb oc m n k la lb lc aov bov a b A B C co driverK simpleK
      refK hcheck hz
    simp only [gemm_s8s8s32, gemm_s8s8s32_route, hcheck, ne_eq,
      not_true_eq_false, if_false, Option.getD_some]
    rw [if_pos hz]
  · intro mic avx ta tb m n la lb lc a b hcheck
    simp only [extended_sgemm_route, hcheck, ne_eq, not_true_eq_false,
      if_false]
    norm_num
  · intro isTA isTB m n alpha A B beta Cm i j
    simp only [ref_gemm_model, Int.toNat_zero, List.range_zero, List.map_nil,
      List.sum_nil, mul_zero, zero_add, add_zero]

/-- Witness for C4 (amended), exercising the quantized early return at
`M = 0`. -/
theorem gemm_zero_extent_behavior_witness :
    check_gemm_x8x8x32_input (some 'F') (some 'N') (some 'N') (some 0)
      (some 1) (some 1) (some 1) (some 1) (some 1) (some 1) (some 0) false =
      Status.success ∧
    ((0 : Int) = 0 ∨ (1 : Int) = 0 ∨ (1 : Int) = 0) ∧
    gemm_s8s8s32 false false (some 'N') (some 'N') (some 'F') (some 0)
      (some 1) (some 1) (some 1) none (some 1) (some 0) none (some 1)
      (some 0) (some 0) none (some 1) none (fun c => (Status.success, c))
      (fun c => (Status.success, c)) (fun c => (Status.success, c)) =
      (Status.success, none) :=
  ⟨by decide, by decide,
   gemm_zero_extent_behavior.2.1 false false 'N' 'N' 'F' 0 1 1 1 1 1 0 0 1 0
     none none none none (fun c => (Status.success, c))
     (fun c => (Status.success, c)) (fun c => (Status.success, c)) (by decide)
     (by decide)⟩

end DnnlGemm

/-! ## Theorems about the Parallel Executor -/

namespace DnnlThread

/-- Closed form of `balance211`: worker `i` starts at
`i * ⌊total/n⌋ + min i (total % n)` and receives `⌊total/n⌋` units plus one
when `i < total % n`. -/
lemma balance211_eq (total n i : Nat) :
    balance211 total n i =
      (i * (total / n) + min i (total % n),
       i * (total / n) + min i (total % n) +
         (if i < total % n then total / n + 1 else total / n)) := by
  have hst : (if i < total % n then i * (total / n + 1)
      else (total % n) * (total / n + 1) + (i - total % n) * (total / n)) =
      i * (total / n) + min i (total % n) := by
    split_ifs with h
    · rw [Nat.mul_succ, Nat.min_eq_left h.le]
    · have hle : total % n ≤ i := le_of_not_lt h
      have hmul : total % n * (total / n) ≤ i * (total / n) :=
        Nat.mul_le_mul_right _ hle
      rw [Nat.min_eq_right hle, Nat.mul_succ, Nat.sub_mul, Nat.add_right_comm,
        Nat.add_sub_cancel' hmul]
  simp only [balance211]
  rw [hst]

/-- Worker start positions are monotone in the worker id. -/
lemma balance211_start_le (total n : Nat) {i j : Nat} (h : i ≤ j) :
    (balance211 total n i).1 ≤ (balance211 total n j).1 := by
  simp only [balance211_eq]
  exact Nat.add_le_add (Nat.mul_le_mul_right _ h) (min_le_min h (le_refl _))

/-- The ranges are contiguous: worker `i` ends exactly where worker `i + 1`
starts. -/
lemma balance211_contiguous (total n i : Nat) :
    (balance211 total n i).2 = (balance211 total n (i + 1)).1 := by
  simp only [balance211_eq]
  split_ifs with h
  · rw [Nat.min_eq_left h.le, Nat.min_eq_left (Nat.succ_le_of_lt h)]
    have hmm : (i + 1) * (total / n) = i * (total / n) + total / n := by
      rw [Nat.add_mul, Nat.one_mul]
    omega
  · rw [Nat.min_eq_right (le_of_not_lt h),
      Nat.min_eq_right (le_trans (le_of_not_lt h) (Nat.le_succ i))]
    have hmm : (i + 1) * (total / n) = i * (total / n) + total / n := by
      rw [Nat.add_mul, Nat.one_mul]
    omega

/-- Worker 0 starts at 0. -/
lemma balance211_start_zero (total n : Nat) : (balance211 total n 0).1 = 0 := by
  simp [balance211_eq]

/-- The virtual worker `n` starts at `total`: the ranges exhaust `[0, total)`. -/
lemma balance211_start_total (total n : Nat) (hn : 0 < n) :
    (balance211 total n n).1 = total := by
  simp only [balance211_eq]
  rw [Nat.min_eq_right (le_of_lt (Nat.mod_lt total hn))]
  exact Nat.div_add_mod total n

/-- Every in-range worker's range stays inside `[0, total]`. -/
lemma balance211_end_le_total (total n i : Nat) (hn : 0 < n) (hi : i < n) :
    (balance211 total n i).2 ≤ total := by
  rw [balance211_contiguous]
  calc (balance211 total n (i + 1)).1 ≤ (balance211 total n n).1 :=
        balance211_start_le total n hi
    _ = total := balance211_start_total total n hn

/-- C7 (spec-modelled `balance211`): for every `total ≥ 0` and worker count
`n ≥ 1`, the `n` half-open ranges are pairwise disjoint, their union is
exactly `[0, total)`, each range's size is `⌊total/n⌋` or `⌈total/n⌉` with
the first `total mod n` worker ids receiving the larger size, and the
partition is deterministic. -/
theorem balance211_partition (total n : Nat) (hn : 1 ≤ n) :
    balance211_partition_spec total n := by
  have hn0 : 0 < n := hn
  refine ⟨?_, ?_, ?_, ?_, ?_, fun i => rfl⟩
  · intro i j hij _
    rw [balance211_contiguous]
    exact balance211_start_le total n hij
  · intro x hx
    set P : Nat → Prop := fun i => (balance211 total n i).1 ≤ x with hP
    have h0 : P 0 := by
      simp only [hP, balance211_start_zero]
      exact Nat.zero_le x
    have hPi : P (Nat.findGreatest P (n - 1)) :=
      Nat.findGreatest_spec (Nat.zero_le (n - 1)) h0
    have hile : Nat.findGreatest P (n - 1) ≤ n - 1 := Nat.findGreatest_le (n - 1)
    have hilt : Nat.findGreatest P (n - 1) < n :=
      lt_of_le_of_lt hile (Nat.sub_lt hn0 Nat.one_pos)
    refine ⟨Nat.findGreatest P (n - 1), hilt, hPi, ?_⟩
    by_cases hin : Nat.findGreatest P (n - 1) = n - 1
    · rw [balance211_contiguous]
      have hsucc : Nat.findGreatest P (n - 1) + 1 = n := by omega
      rw [hsucc, balance211_start_total total n hn0]
      exact hx
    · have hlt : Nat.findGreatest P (n - 1) + 1 ≤ n - 1 := by omega
      have hnp : ¬ P (Nat.findGreatest P (n - 1) + 1) :=
        Nat.findGreatest_is_greatest (Nat.lt_succ_self _) hlt
      rw [balance211_contiguous]
      exact not_le.mp hnp
  · intro i hi
    constructor
    · rw [balance211_eq]
      exact Nat.le_add_right _ _
    · exact balance211_end_le_total total n i hn0 hi
  · intro i _
    simp only [balance211_eq, Nat.add_sub_cancel_left]
  · intro i hi
    simp only [balance211_eq, Nat.add_sub_cancel_left]
    split_ifs with h
    · right
      have hq := Nat.div_add_mod total n
      have hr1 : 1 ≤ total % n := by omega
      have hrn : total % n < n := Nat.mod_lt total hn0
      have hmm : n * (total / n + 1) = n * (total / n) + n := by
        rw [Nat.mul_add, Nat.mul_one]
      have h2 : total + n - 1 = n * (total / n + 1) + (total % n - 1) := by
        omega
      rw [h2, Nat.mul_add_div hn0,
        Nat.div_eq_of_lt (show total % n - 1 < n by omega)]
    · left
      rfl

/-- Witness for C7 at `total = 7`, `n = 3`. -/
theorem balance211_partition_witness :
    1 ≤ 3 ∧ balance211_partition_spec 7 3 :=
  ⟨by decide, balance211_partition 7 3 (by decide)⟩

end DnnlThread

namespace DnnlThread

/-- Stepping from the mixed-radix decomposition of `i` yields the
decomposition of `i + 1`; the carry-out fires exactly when `i + 1` is a
multiple of the extent product. -/
lemma nd_step_init (ds : List Nat) (hpos : ∀ d ∈ ds, 0 < d) (i : Nat) :
    nd_iterator_step (nd_iterator_init ds i) ds =
      (nd_iterator_init ds (i + 1), decide ((i + 1) % ds.prod = 0)) := by
  induction ds generalizing i with
  | nil =>
    simp [nd_iterator_init, nd_iterator_step, Nat.mod_one]
  | cons d ds ih =>
    have hd : 0 < d := hpos d (List.mem_cons_self d ds)
    have hpos' : ∀ x ∈ ds, 0 < x := fun x hx => hpos x (List.mem_cons_of_mem d hx)
    have hP : 0 < ds.prod := List.prod_pos hpos'
    simp only [nd_iterator_init, nd_iterator_step, List.prod_cons, ih hpos']
    have hq := Nat.div_add_mod i ds.prod
    have hblt : i % ds.prod < ds.prod := Nat.mod_lt _ hP
    split_ifs with h1 h2
    · -- inner carry, outer digit wraps
      have hb : (i + 1) % ds.prod = 0 := of_decide_eq_true h1
      obtain ⟨c, hc⟩ := Nat.dvd_of_mod_eq_zero hb
      have hc1 : 1 ≤ c := by
        rcases Nat.eq_zero_or_pos c with h0 | hpc
        · subst h0; rw [Nat.mul_zero] at hc; omega
        · exact hpc
      have hmul : ds.prod * c = ds.prod * (c - 1) + ds.prod := by
        calc ds.prod * c = ds.prod * ((c - 1) + 1) := by
              rw [Nat.sub_add_cancel hc1]
          _ = ds.prod * (c - 1) + ds.prod := by rw [Nat.mul_add, Nat.mul_one]
      have hi_eq : i = ds.prod * (c - 1) + (ds.prod - 1) := by omega
      have hdiv_i : i / ds.prod = c - 1 := by
        rw [hi_eq, Nat.mul_add_div hP, Nat.div_eq_of_lt (by omega)]
        omega
      have hdiv_i1 : (i + 1) / ds.prod = c := by
        rw [hc, Nat.mul_div_cancel_left c hP]
      rw [hdiv_i] at h2
      have haa := Nat.div_add_mod (c - 1) d
      have hcd : c % d = 0 := by
        have h3 : c = d * ((c - 1) / d + 1) := by
          rw [Nat.mul_add, Nat.mul_one]; omega
        rw [h3, Nat.mul_mod_right]
      obtain ⟨e, he⟩ := Nat.dvd_of_mod_eq_zero hcd
      have hcar : (i + 1) % (d * ds.prod) = 0 := by
        have h5 : i + 1 = d * ds.prod * e := by rw [hc, he]; ring
        rw [h5, Nat.mul_mod_right]
      have hhead : (i + 1) / ds.prod % d = 0 := by rw [hdiv_i1, hcd]
      simp [hhead, hcar]
    · -- inner carry, outer digit advances
      have hb : (i + 1) % ds.prod = 0 := of_decide_eq_true h1
      obtain ⟨c, hc⟩ := Nat.dvd_of_mod_eq_zero hb
      have hc1 : 1 ≤ c := by
        rcases Nat.eq_zero_or_pos c with h0 | hpc
        · subst h0; rw [Nat.mul_zero] at hc; omega
        · exact hpc
      have hmul : ds.prod * c = ds.prod * (c - 1) + ds.prod := by
        calc ds.prod * c = ds.prod * ((c - 1) + 1) := by
              rw [Nat.sub_add_cancel hc1]
          _ = ds.prod * (c - 1) + ds.prod := by rw [Nat.mul_add, Nat.mul_one]
      have hi_eq : i = ds.prod * (c - 1) + (ds.prod - 1) := by omega
      have hdiv_i : i / ds.prod = c - 1 := by
        rw [hi_eq, Nat.mul_add_div hP, Nat.div_eq_of_lt (by omega)]
        omega
      have hdiv_i1 : (i + 1) / ds.prod = c := by
        rw [hc, Nat.mul_div_cancel_left c hP]
      rw [hdiv_i] at h2
      have haa := Nat.div_add_mod (c - 1) d
      have hmd : (c - 1) % d < d := Nat.mod_lt _ hd
      have hcd : c % d = (c - 1) % d + 1 := by
        have h3 : c = d * ((c - 1) / d) + ((c - 1) % d + 1) := by omega
        nth_rewrite 1 [h3]
        rw [Nat.mul_add_mod, Nat.mod_eq_of_lt (by omega)]
      have hcar : (i + 1) % (d * ds.prod) = ds.prod * (c % d) := by
        rw [hc, Nat.mul_comm d ds.prod, Nat.mul_mod_mul_left]
      have hne : ds.prod * (c % d) ≠ 0 := by
        rw [hcd]
        exact Nat.mul_ne_zero (by omega) (by omega)
      simp only [Prod.mk.injEq, List.cons.injEq]
      refine ⟨⟨?_, trivial⟩, ?_⟩
      · rw [hdiv_i, hdiv_i1, hcd]
      · simp [hcar, hne]
    · -- no inner carry: outer digit unchanged
      have hb : (i + 1) % ds.prod ≠ 0 := fun h => h1 (by simp [h])
      have hlt : i % ds.prod + 1 < ds.prod := by
        rcases Nat.lt_or_ge (i % ds.prod + 1) ds.prod with h | h
        · exact h
        · exfalso
          apply hb
          have h3 : i + 1 = ds.prod * (i / ds.prod + 1) := by
            rw [Nat.mul_add, Nat.mul_one]; omega
          rw [h3, Nat.mul_mod_right]
      have hdiv : (i + 1) / ds.prod = i / ds.prod := by
        have h3 : i + 1 = ds.prod * (i / ds.prod) + (i % ds.prod + 1) := by omega
        conv_lhs => rw [h3]
        rw [Nat.mul_add_div hP, Nat.div_eq_of_lt hlt]
        omega
      have hcar : (i + 1) % (d * ds.prod) ≠ 0 := by
        intro h0
        apply hb
        have h4 := Nat.mod_mod_of_dvd (i + 1) (dvd_mul_left ds.prod d)
        rw [h0, Nat.zero_mod] at h4
        omega
      rw [hdiv]
      simp [hcar]

/-- Collecting `cnt` coordinates starting from the decomposition of `s`
yields exactly the decompositions of `s, s+1, ..., s+cnt-1`. -/
lemma iter_collect_init (ds : List Nat) (hpos : ∀ d ∈ ds, 0 < d) (cnt : Nat) :
    ∀ s, iter_collect ds cnt (nd_iterator_init ds s) =
      (List.range' s cnt).map (nd_iterator_init ds) := by
  induction cnt with
  | zero => intro s; rfl
  | succ cnt ih =>
    intro s
    rw [List.range'_succ, List.map_cons, iter_collect, nd_step_init ds hpos s]
    exact congrArg _ (ih (s + 1))

/-- Unfolding of `for_nd` on a nonempty iteration space: the worker visits
the decompositions of its balanced linear range in increasing order. -/
lemma for_nd_eq_map (ithr nthr : Nat) (ds : List Nat)
    (hpos : ∀ d ∈ ds, 0 < d) :
    for_nd ithr nthr ds =
      (List.range' (balance211 ds.prod nthr ithr).1
        ((balance211 ds.prod nthr ithr).2 - (balance211 ds.prod nthr ithr).1)).map
        (nd_iterator_init ds) := by
  have hP : 0 < ds.prod := List.prod_pos hpos
  rw [for_nd, if_neg (by omega)]
  exact iter_collect_init ds hpos _ _

/-- `balance211` on an empty workload assigns every worker the empty range. -/
lemma balance211_zero_total (n i : Nat) : balance211 0 n i = (0, 0) := by
  simp [balance211_eq]

/-- Concatenating the balanced ranges of workers `0..n-1` in order yields
exactly `[0, total)`. -/
lemma range_flatMap_balance (total n : Nat) (hn : 0 < n) :
    ((List.range n).flatMap (fun i => List.range' (balance211 total n i).1
      ((balance211 total n i).2 - (balance211 total n i).1))) =
      List.range total := by
  suffices h : ∀ m, ((List.range m).flatMap
      (fun i => List.range' (balance211 total n i).1
        ((balance211 total n i).2 - (balance211 total n i).1))) =
      List.range' 0 (balance211 total n m).1 by
    rw [h n, balance211_start_total total n hn, List.range_eq_range']
  intro m
  induction m with
  | zero => simp [balance211_start_zero]
  | succ m ih =>
    rw [List.range_succ, List.flatMap_append, ih]
    simp only [List.flatMap_cons, List.flatMap_nil, List.append_nil]
    have hle : (balance211 total n m).1 ≤ (balance211 total n m).2 := by
      simp only [balance211_eq]
      exact Nat.le_add_right _ _
    have h1 : (balance211 total n m).1 +
        ((balance211 total n m).2 - (balance211 total n m).1) =
        (balance211 total n (m + 1)).1 := by
      rw [← balance211_contiguous]
      omega
    have h2 := List.range'_append 0 (balance211 total n m).1
      ((balance211 total n m).2 - (balance211 total n m).1) 1
    simp only [Nat.one_mul, Nat.zero_add] at h2
    rw [h2, Nat.add_comm, h1]

/-- Across the whole team, `for_nd` visits the decompositions of
`0, 1, ..., prod - 1` in order. -/
lemma for_nd_all_eq (nthr : Nat) (hn : 0 < nthr) (ds : List Nat)
    (hpos : ∀ d ∈ ds, 0 < d) :
    for_nd_all nthr ds = (List.range ds.prod).map (nd_iterator_init ds) := by
  have h1 : ∀ i : Nat, for_nd i nthr ds =
      (List.range' (balance211 ds.prod nthr i).1
        ((balance211 ds.prod nthr i).2 - (balance211 ds.prod nthr i).1)).map
        (nd_iterator_init ds) := fun i => for_nd_eq_map i nthr ds hpos
  rw [for_nd_all]
  simp only [h1]
  rw [← List.map_flatMap, range_flatMap_balance ds.prod nthr hn]

/-- The decomposition of a linear index only depends on its residue modulo
the extent product. -/
lemma nd_init_periodic : ∀ (ds : List Nat), (∀ d ∈ ds, 0 < d) →
    ∀ (x r : Nat), nd_iterator_init ds (x * ds.prod + r) = nd_iterator_init ds r
  | [], _, _, _ => rfl
  | d :: ds, hpos, x, r => by
    have hpos' : ∀ y ∈ ds, 0 < y := fun y hy => hpos y (List.mem_cons_of_mem d hy)
    have hP : 0 < ds.prod := List.prod_pos hpos'
    have hrw : x * (d :: ds).prod + r = (x * d) * ds.prod + r := by
      rw [List.prod_cons]; ring
    simp only [nd_iterator_init, hrw]
    have hhead : ((x * d) * ds.prod + r) / ds.prod % d = r / ds.prod % d := by
      rw [Nat.mul_comm (x * d) ds.prod, Nat.mul_add_div hP, Nat.add_comm,
        Nat.add_mul_mod_self_right]
    rw [hhead, nd_init_periodic ds hpos' (x * d) r]

/-- Splitting `range (a * b)` into `a` consecutive blocks of length `b`. -/
lemma range_mul_flatMap (a b : Nat) :
    List.range (a * b) = (List.range a).flatMap (fun x => List.range' (x * b) b) := by
  induction a with
  | zero => simp
  | succ a ih =>
    rw [List.range_succ, List.flatMap_append, ← ih]
    simp only [List.flatMap_cons, List.flatMap_nil, List.append_nil]
    rw [Nat.succ_mul, List.range_eq_range', List.range_eq_range']
    have h2 := List.range'_append 0 (a * b) b 1
    simp only [Nat.one_mul, Nat.zero_add] at h2
    rw [Nat.add_comm (a * b) b, ← h2]

/-- The decompositions of `0, 1, ..., prod - 1` enumerate the Cartesian
product of the extents in row-major order. -/
lemma map_init_range : ∀ (ds : List Nat), (∀ d ∈ ds, 0 < d) →
    (List.range ds.prod).map (nd_iterator_init ds) = allCoords ds
  | [], _ => rfl
  | d :: ds, hpos => by
    have hpos' : ∀ y ∈ ds, 0 < y := fun y hy => hpos y (List.mem_cons_of_mem d hy)
    have hP : 0 < ds.prod := List.prod_pos hpos'
    rw [List.prod_cons, range_mul_flatMap d ds.prod, List.map_flatMap, allCoords,
      List.flatMap_def, List.flatMap_def]
    apply congrArg List.flatten
    apply List.map_congr_left
    intro x hx
    have hxd : x < d := List.mem_range.mp hx
    rw [List.range'_eq_map_range, List.map_map, ← map_init_range ds hpos',
      List.map_map]
    apply List.map_congr_left
    intro r hr
    have hrP : r < ds.prod := List.mem_range.mp hr
    show nd_iterator_init (d :: ds) (x * ds.prod + r) = x :: nd_iterator_init ds r
    simp only [nd_iterator_init, List.cons.injEq]
    constructor
    · rw [Nat.mul_comm x ds.prod, Nat.mul_add_div hP, Nat.div_eq_of_lt hrP,
        Nat.add_zero, Nat.mod_eq_of_lt hxd]
    · exact nd_init_periodic ds hpos' x r

end DnnlThread

namespace DnnlThread

/-- Membership in the row-major enumeration is exactly pointwise bound
satisfaction. -/
lemma mem_allCoords : ∀ (ds cs : List Nat), cs ∈ allCoords ds ↔ inSpace cs ds = true
  | [], cs => by cases cs <;> simp [allCoords, inSpace]
  | d :: ds, cs => by
    cases cs with
    | nil => simp [allCoords, List.mem_flatMap, List.mem_map, inSpace]
    | cons c cs' =>
      simp [allCoords, List.mem_flatMap, List.mem_map, inSpace,
        mem_allCoords ds cs', List.mem_range, List.cons.injEq]

/-- The row-major enumeration has no duplicate coordinates. -/
lemma allCoords_nodup : ∀ (ds : List Nat), (allCoords ds).Nodup
  | [] => by simp [allCoords]
  | d :: ds => by
    rw [allCoords]
    apply List.nodup_flatMap.mpr
    constructor
    · intro x _
      exact (allCoords_nodup ds).map List.cons_injective
    · apply (List.pairwise_lt_range d).imp
      intro x y hxy
      intro a hax hay
      obtain ⟨b1, _, hb1⟩ := List.mem_map.mp hax
      obtain ⟨b2, _, hb2⟩ := List.mem_map.mp hay
      rw [← hb2] at hb1
      injection hb1 with hh _
      omega

/-- In a duplicate-free list every member is counted exactly once (stated
for any lawful `BEq`). -/
lemma count_one_of_nodup_mem {α : Type} [BEq α] [LawfulBEq α] {l : List α}
    {a : α} (hn : l.Nodup) (ha : a ∈ l) : l.count a = 1 := by
  induction l with
  | nil => cases ha
  | cons b l ih =>
    obtain ⟨hbl, hnl⟩ := List.nodup_cons.mp hn
    rw [List.count_cons]
    rcases List.mem_cons.mp ha with h | h
    · subst h
      rw [List.count_eq_zero_of_not_mem hbl, if_pos (by simp)]
    · have hba : b ≠ a := fun hba => hbl (hba ▸ h)
      rw [ih hnl h, if_neg (by simp [hba])]

/-- Each valid coordinate occurs exactly once in the row-major enumeration;
invalid coordinates do not occur. -/
lemma allCoords_count (ds cs : List Nat) :
    (allCoords ds).count cs = if inSpace cs ds then 1 else 0 := by
  by_cases h : inSpace cs ds
  · rw [if_pos h]
    exact count_one_of_nodup_mem (allCoords_nodup ds)
      ((mem_allCoords ds cs).mpr h)
  · rw [if_neg h]
    exact List.count_eq_zero_of_not_mem
      (fun hm => h ((mem_allCoords ds cs).mp hm))

/-- No coordinate lies inside an iteration space with a zero extent. -/
lemma inSpace_of_zero_mem : ∀ (ds cs : List Nat), 0 ∈ ds →
    inSpace cs ds = false
  | [], _, h0 => absurd h0 (List.not_mem_nil 0)
  | d :: ds, cs, h0 => by
    cases cs with
    | nil => rfl
    | cons c cs' =>
      rcases List.mem_cons.mp h0 with hd0 | hds
      · subst hd0
        simp [inSpace]
      · rw [inSpace, inSpace_of_zero_mem ds cs' hds, Bool.and_false]

/-- A zero extent product makes every worker's `for_nd` a no-op. -/
lemma for_nd_of_prod_zero (ithr nthr : Nat) (ds : List Nat)
    (hz : ds.prod = 0) : for_nd ithr nthr ds = [] := by
  rw [for_nd, if_pos hz]

/-- C8 (spec-modelled `balance211` and `nd_iterator_init`/`step`): for every
team size `nthr ≥ 1` and extent list of arity 1..6, the multiset of
coordinates visited across all workers is exactly the Cartesian product of
the extents, each coordinate once; each worker visits the mixed-radix
decompositions of its linear range in increasing row-major order; and a zero
extent makes the call a no-op — including the one-dimensional overload,
which has no explicit zero guard. -/
theorem for_nd_coverage (nthr : Nat) (hn : 1 ≤ nthr) (ds : List Nat)
    (hlen : 1 ≤ ds.length ∧ ds.length ≤ 6) : for_nd_coverage_spec nthr ds := by
  have hn0 : 0 < nthr := hn
  refine ⟨?_, ?_, ?_, ?_, ?_⟩
  · intro cs
    by_cases hpos : ∀ d ∈ ds, 0 < d
    · rw [for_nd_all_eq nthr hn0 ds hpos, map_init_range ds hpos]
      exact allCoords_count ds cs
    · push_neg at hpos
      obtain ⟨d0, hd0, hd0z⟩ := hpos
      have hz : (0 : Nat) ∈ ds := by
        have : d0 = 0 := by omega
        rwa [this] at hd0
      have hprod : ds.prod = 0 := List.prod_eq_zero hz
      have hnil : for_nd_all nthr ds = [] := by
        rw [for_nd_all]
        simp [for_nd_of_prod_zero, hprod]
      rw [hnil, inSpace_of_zero_mem ds cs hz]
      simp
  · intro ithr
    by_cases hpos : ∀ d ∈ ds, 0 < d
    · exact for_nd_eq_map ithr nthr ds hpos
    · push_neg at hpos
      obtain ⟨d0, hd0, hd0z⟩ := hpos
      have hz : (0 : Nat) ∈ ds := by
        have : d0 = 0 := by omega
        rwa [this] at hd0
      have hprod : ds.prod = 0 := List.prod_eq_zero hz
      rw [for_nd_of_prod_zero ithr nthr ds hprod, hprod, balance211_zero_total]
      rfl
  · intro hz ithr
    exact for_nd_of_prod_zero ithr nthr ds (List.prod_eq_zero hz)
  · intro ithr
    rw [for_nd1, balance211_zero_total]
    rfl
  · intro D0 x
    rw [for_nd1_all]
    have h1 : ∀ i : Nat, for_nd1 i nthr D0 =
        List.range' (balance211 D0 nthr i).1
          ((balance211 D0 nthr i).2 - (balance211 D0 nthr i).1) :=
      fun i => rfl
    simp only [h1]
    rw [range_flatMap_balance D0 nthr hn0]
    by_cases hx : x < D0
    · rw [if_pos hx]
      exact count_one_of_nodup_mem (List.nodup_range D0)
        (List.mem_range.mpr hx)
    · rw [if_neg hx]
      exact List.count_eq_zero_of_not_mem
        (fun hm => hx (List.mem_range.mp hm))

/-- Witness for C8 at two workers over extents `[2, 3]`. -/
theorem for_nd_coverage_witness :
    1 ≤ 2 ∧ (1 ≤ ([2, 3] : List Nat).length ∧ ([2, 3] : List Nat).length ≤ 6) ∧
    for_nd_coverage_spec 2 [2, 3] :=
  ⟨by decide, ⟨by decide, by decide⟩,
   for_nd_coverage 2 (by decide) [2, 3] ⟨by decide, by decide⟩⟩

end DnnlThread

/-! ## Theorems about the JIT addressing helpers -/

namespace DnnlJit

/-- C9: for every base register value and byte offset, the large-offset
branch of `make_safe_addr` (which first materializes the offset into the
scratch register) denotes exactly the same effective address as the
direct-immediate form, with the same broadcast flag, and `safe_add` /
`safe_sub` leave exactly the same final value in the base register as the
direct-immediate branch: callers cannot observe which form was chosen. -/
theorem safe_addressing_equiv (rf : RegFile) (reg_out offt tmp : Nat)
    (bcast : Bool) (htmp : tmp ≠ reg_out) :
    safe_addr_equiv_spec rf reg_out offt tmp bcast := by
  refine ⟨?_, ?_, ?_, ?_⟩
  · rw [make_safe_addr]
    split_ifs with h
    · simp only [evalAddr, direct_addr, setReg, if_pos rfl, W64]
      rw [if_neg (fun hh : reg_out = tmp => htmp hh.symm)]
      push_cast
      omega
    · rfl
  · rw [make_safe_addr]
    split_ifs <;> rfl
  · intro base hbase
    rw [safe_add]
    split_ifs with h
    · simp only [setReg, Ne.symm hbase, if_false, if_true, eq_self_iff_true, W64]
      omega
    · simp [setReg]
  · intro base hbase
    rw [safe_sub]
    split_ifs with h
    · simp only [setReg, sub64, Ne.symm hbase, if_false, if_true,
        eq_self_iff_true, W64]
      omega
    · simp [setReg]

/-- Witness for C9 at a concrete large offset with scratch register 1 and
base register 0. -/
theorem safe_addressing_equiv_witness :
    (1 : Nat) ≠ 0 ∧
    safe_addr_equiv_spec (fun r => r) 0 2147483655 1 false :=
  ⟨by decide, safe_addressing_equiv (fun r => r) 0 2147483655 1 false (by decide)⟩

/-- C10: under the precondition established by `preamble` that
`reg_EVEX_max_8b_offt` (rbp) holds `2 * EVEX_max_8b_offt = 0x400`,
`EVEX_compress_addr base offt` denotes exactly `base + offt` for every
`0 ≤ offt ≤ INT_MAX`: in `[0x200, 0x600)` the displacement is rebased by
`-0x400` and compensated with `rbp * 1`, in `[0x600, 0xA00)` rebased by
`-0x800` and compensated with `rbp * 2`, and outside both bands `offt` is
encoded directly. -/
theorem EVEX_compress_addr_eval (rf : RegFile) (base : Nat) (offt : Int)
    (bcast : Bool) (hrbp : rf reg_EVEX_max_8b_offt = 0x400)
    (h0 : 0 ≤ offt) (h1 : offt ≤ 2147483647) :
    EVEX_compress_spec rf base offt bcast := by
  refine ⟨?_, ?_, ?_, ?_⟩
  · rw [EVEX_compress_addr]
    simp only [EVEX_max_8b_offt]
    split_ifs with hb1 hb2 <;>
      · simp only [evalAddr, hrbp, W64]
        push_cast
        omega
  · intro hband
    rw [EVEX_compress_addr, if_pos (by simp only [EVEX_max_8b_offt]; omega)]
    simp only [EVEX_max_8b_offt]
    norm_num
  · intro hband
    rw [EVEX_compress_addr, if_neg (by simp only [EVEX_max_8b_offt]; omega),
      if_pos (by simp only [EVEX_max_8b_offt]; omega)]
    simp only [EVEX_max_8b_offt]
    norm_num
  · intro hb1 hb2
    rw [EVEX_compress_addr, if_neg (by simp only [EVEX_max_8b_offt]; omega),
      if_neg (by simp only [EVEX_max_8b_offt]; omega)]

/-- Witness for C10 in the first compression band, with rbp = 0x400 as the
preamble leaves it. -/
theorem EVEX_compress_addr_eval_witness :
    (preamble_EVEX_setup true (fun _ => 0)) reg_EVEX_max_8b_offt = 0x400 ∧
    (0 : Int) ≤ 0x300 ∧ (0x300 : Int) ≤ 2147483647 ∧
    EVEX_compress_spec (preamble_EVEX_setup true (fun _ => 0)) 3 0x300 false :=
  ⟨by decide, by decide, by decide,
   EVEX_compress_addr_eval (preamble_EVEX_setup true (fun _ => 0)) 3 0x300
     false (by decide) (by decide) (by decide)⟩

end DnnlJit
